import Mathlib

/-!
Verification of the `pomp` crawl-orchestration engine (`pomp/core/engine.py`)
against its natural-language specification.

The engine is embedded shallowly: Python values produced by `crawler.process`
become an inductive `Value` type carrying Python truthiness; pipeline stages
become pure functions `Item → Option Item` (a falsy return, dropped by
`filter(None, ...)`, is `none`); the engine's mutable run state (`self.stoped`,
the pipeline `stop` invocations, the `stop_deferred` resolution) becomes an
explicit `RunState` record threaded through the embedded operations.

`pomp.core.utils` (`iterator`, `isstring`, `DeferredList`), `pomp.core.item`
(`Item`), `pomp.core.base` (`BaseHttpRequest`) and the `defer` library are not
part of the sources under verification; where their behaviour matters it is
modelled from the spec and noted in the doc comment of the definition.
-/

set_option autoImplicit false

namespace Pomp

/-- Items are opaque domain values; only identity matters to the engine. -/
abbrev Item := Nat

/-- A Python value produced by `crawler.process(response)`, as the engine
classifies it in `Pomp._process_result`:
a `BaseHttpRequest` instance, a raw string (`isstring`), an `Item` instance,
`None`, or any other object together with its Python truthiness.
Modelled from the spec: `BaseHttpRequest` and `Item` live in
`pomp.core.base` / `pomp.core.item`, outside the verified sources; they are
distinct classes, so a single object is never an instance of both, and plain
instances are truthy. A string is falsy exactly when it is empty. -/
inductive Value where
  | vreq (r : Nat)
  | vstr (s : String)
  | vitem (i : Item)
  | vnone
  | vother (b : Bool)
deriving DecidableEq, Repr

/-- Python truthiness of a `Value` (`True if x else False`). -/
def truthy : Value → Bool
  | .vreq _ => true
  | .vstr s => !s.isEmpty
  | .vitem _ => true
  | .vnone => false
  | .vother b => b

/-- The request-like test of `Pomp._process_result`:
`isinstance(i, BaseHttpRequest) or isstring(i)`. -/
def isRequestLike : Value → Bool
  | .vreq _ => true
  | .vstr _ => true
  | _ => false

/-- The item-like test of `Pomp._process_result`:
`isinstance(i, Item)`, returning the underlying item. -/
def asItem : Value → Option Item
  | .vitem i => some i
  | _ => none

/-- `pomp.core.engine.filter_requests`: `filter(lambda x: True if x else False,
iterator(requests))`. Modelled from the spec: `iterator` (from
`pomp.core.utils`, not under the verified sources) normalizes its argument
into a finite traversable sequence; on a sequence it yields the elements in
order, so on a materialized list `filter_requests` is truthiness filtering. -/
def filter_requests (requests : List Value) : List Value :=
  requests.filter truthy

/-- A pipeline stage. `process(crawler, item)` returns the (possibly replaced)
item or a falsy value; `list(filter(None, map(pipe.process, items)))` drops
falsy returns, so a drop is modelled as `none`. The `crawler` argument does
not influence the engine's control flow and is omitted. -/
structure Pipe where
  process : Item → Option Item

instance : Inhabited Pipe := ⟨⟨fun i => some i⟩⟩

/-- The item-piping loop of `Pomp._process_result`: for each pipe in order,
`items = list(filter(None, map(lambda i: pipe.process(crawler, i), items)))`. -/
def pipe_all (pipes : List Pipe) (items : List Item) : List Item :=
  pipes.foldl (fun acc p => acc.filterMap p.process) items

/-- The request extraction of `Pomp._process_result`:
`next_requests = list(filter(lambda i: isinstance(i, BaseHttpRequest) or
isstring(i), items))`. -/
def process_result_requests (items : List Value) : List Value :=
  items.filter isRequestLike

/-- The item side of `Pomp._process_result`: `items = filter(lambda i:
isinstance(i, Item), items)` followed by the piping loop. Modelled from the
spec for the shared traversal: `iterator` (not under the verified sources)
is required by spec §4.6(b) to let the engine classify every produced value
into both the request-like and the item-like set, so the batch is modelled
as a re-traversable list. -/
def process_result_items (pipes : List Pipe) (items : List Value) : List Item :=
  pipe_all pipes (items.filterMap asItem)

/-- The value `Pomp._process_result` returns to its caller: on the paths with
a queue configured, or a breadth-first crawler, or an empty extracted request
list, it is the extracted request list; on the depth-first no-queue path with
a non-empty extracted list, `next_requests` is reassigned to the return value
of the `downloader.process(next_requests, self.response_callback, crawler)`
dispatch that `_process_result` performs itself, and that value is returned
instead. Modelled from the spec: `downloader.process` (contract in
`pomp.core.base`, not under the verified sources) returns per §4.4 "an
immediately-available result or a future", an opaque completion value — in
particular not the list of extracted requests — carried here as an opaque
descriptor. -/
inductive ProcessResultReturn where
  | requests (rs : List Value)
  | downloaderResult (d : Nat)
deriving DecidableEq, Repr

/-- The return branch of `Pomp._process_result`: `if not self.queue and
crawler.is_depth_first() and next_requests:` rebind `next_requests` to the
`downloader.process` result before `return next_requests`. `d` is the opaque
completion value the downloader returns for this dispatch. -/
def process_result_return (hasQueue : Bool) (isDepthFirst : Bool)
    (items : List Value) (d : Nat) : ProcessResultReturn :=
  if !hasQueue && isDepthFirst && !(process_result_requests items).isEmpty then
    .downloaderResult d
  else
    .requests (process_result_requests items)

/-- The result of `crawler.process(response)`: either a single batch or a
generator of batches (`types.GeneratorType`), as distinguished by
`Pomp.response_callback`. A generator is finite and single-pass; the embedding
records the batches it yields. -/
inductive ProcessOut where
  | plain (batch : List Value)
  | gen (batches : List (List Value))
deriving Repr

/-- The `requests_from_items` accumulation of `Pomp.response_callback`:
a single `_process_result` call on a plain batch, or the concatenation
(`requests_from_items += ...`) of the per-batch `_process_result` calls when
`crawler.process` returned a generator. This is the value `_process_result`
returns on the non-recursive paths (queue configured, or breadth-first). -/
def requests_from_items : ProcessOut → List Value
  | .plain b => process_result_requests b
  | .gen bs => (bs.map process_result_requests).flatten

/-- The items piped by `Pomp.response_callback`: per-batch piping inside the
generator loop, or one `_process_result` call on a plain batch. -/
def piped_items (pipes : List Pipe) : ProcessOut → List Item
  | .plain b => process_result_items pipes b
  | .gen bs => (bs.map (process_result_items pipes)).flatten

/-- The next-batch merge of `Pomp.response_callback`: if `requests_from_items`
is truthy (non-empty list), fetch `_requests = crawler.next_requests(response)`
and chain them after the item-derived requests when `_requests` is truthy,
else keep `requests_from_items`; if `requests_from_items` is falsy the next
batch is `crawler.next_requests(response)` alone. -/
def response_next_batch (rfi : List Value) (fromCrawler : List Value) : List Value :=
  if !rfi.isEmpty then
    if !fromCrawler.isEmpty then rfi ++ fromCrawler else rfi
  else fromCrawler

/-- Where `Pomp.response_callback` sends the computed next batch: with a queue
it returns the batch to pass through the queue (before any strategy test);
without a queue it recurses when `crawler.is_depth_first()` and otherwise
returns the batch upward for aggregation. -/
inductive Route where
  | toQueue
  | recurseDepthFirst
  | upward
deriving DecidableEq, Repr

/-- The mode branch at the end of `Pomp.response_callback`. -/
def response_route (hasQueue : Bool) (isDepthFirst : Bool) : Route :=
  if hasQueue then .toQueue
  else if isDepthFirst then .recurseDepthFirst
  else .upward

/-- The engine's per-run mutable state, as read and written by
`Pomp._check_stop` and `Pomp._stop`: the `self.stoped` flag, the log of
pipeline-stage indices on which `pipe.stop(crawler)` has been invoked (in
invocation order), and the number of `self.stop_deferred.callback(None)`
calls. In `Pomp.pump` the state starts as `self.stoped = False`, no stop
hooks invoked, and a fresh unresolved deferred. -/
structure RunState where
  stoped : Bool
  pipeStopCalls : List Nat
  fulfillCount : Nat
deriving DecidableEq, Repr

/-- The run state created by `Pomp.pump` before dispatch begins. -/
def pump_init : RunState :=
  { stoped := false, pipeStopCalls := [], fulfillCount := 0 }

/-- `Pomp._stop(crawler)` over a run with `n` pipeline stages: set
`self.stoped = True`, invoke `pipe.stop(crawler)` on every stage in chain
order, then resolve `self.stop_deferred`. -/
def pomp_stop (n : Nat) (s : RunState) : RunState :=
  { stoped := true,
    pipeStopCalls := s.pipeStopCalls ++ List.range n,
    fulfillCount := s.fulfillCount + 1 }

/-- `Pomp._check_stop(request, crawler, reason)`: when `self.stoped` is falsy
AND `request` is falsy AND `crawler.in_process()` is falsy, call
`self._stop(crawler)`; otherwise return leaving the state untouched.
`requestTruthy` is the Python truthiness of the `request` argument and
`inProc` the value of `crawler.in_process()` at this evaluation point. -/
def check_stop (n : Nat) (s : RunState) (requestTruthy : Bool) (inProc : Bool) : RunState :=
  if !s.stoped && !requestTruthy && !inProc then pomp_stop n s else s

/-- A sequence of `_check_stop` evaluation points over one run, each recorded
as the pair (truthiness of the freshly computed batch, `crawler.in_process()`
at that point), applied in order. -/
def run_checks (n : Nat) (s : RunState) (checks : List (Bool × Bool)) : RunState :=
  checks.foldl (fun st c => check_stop n st c.1 c.2) s

/-- An observable step of `Pomp._stop`: writing `self.stoped = True`, one
`pipe.stop(crawler)` invocation, or resolving `self.stop_deferred`. -/
inductive Ev where
  | setStopped
  | pipeStopHook (i : Nat)
  | fulfill
deriving DecidableEq, Repr

/-- Effect of one `Pomp._stop` step on the run state. -/
def applyEv (s : RunState) : Ev → RunState
  | .setStopped => { s with stoped := true }
  | .pipeStopHook i => { s with pipeStopCalls := s.pipeStopCalls ++ [i] }
  | .fulfill => { s with fulfillCount := s.fulfillCount + 1 }

/-- The steps of `Pomp._stop(crawler)` in source order: `self.stoped = True`
first, then `pipe.stop(crawler)` for each stage in chain order, then
`self.stop_deferred.callback(None)`. -/
def stop_steps (n : Nat) : List Ev :=
  Ev.setStopped :: ((List.range n).map Ev.pipeStopHook ++ [Ev.fulfill])

/-- Trace of `Pomp.pump(crawler)` restricted to the claims' observables:
which pipeline stages received `start` (in order), the final run state, how
many `downloader.process` dispatches occurred, and how many items were passed
to any pipeline stage's `process`. -/
structure PumpTrace where
  pipeStarts : List Nat
  run : RunState
  downloaderCalls : Nat
  pipedItemCalls : Nat
deriving DecidableEq, Repr

/-- `Pomp.pump(crawler)` for a run with `n` pipeline stages, no queue
configured, and an empty or absent `crawler.ENTRY_REQUESTS`, following the
source path: `downloader.prepare()`; `self.stoped = False`;
`crawler._reset_state()`; `pipe.start(crawler)` for each stage in order; a
fresh `stop_deferred`; `next_requests = getattr(crawler, 'ENTRY_REQUESTS',
None)` is falsy so no `downloader.process` call is made. Without a queue:
when `crawler.is_depth_first()` is falsy, `_sync_or_async(next_requests, ...)`
runs — modelled from the spec: `DeferredList` (from `pomp.core.utils`, not
under the verified sources) on the empty filtered list resolves immediately
per spec §4.1, so `_on_next_requests([], crawler)` fires, `_do` dispatches
nothing, and `_check_stop(None, crawler, 'recursion ended')` runs with the
crawler's `in_process()` value `inProc`. When `crawler.is_depth_first()` is
truthy, the engine only fires `next_requests` if it is a generator — here it
is not — and returns the deferred with no stop check. -/
def pump_no_queue_no_entries (n : Nat) (isDepthFirst : Bool) (inProc : Bool) : PumpTrace :=
  if isDepthFirst then
    { pipeStarts := List.range n, run := pump_init,
      downloaderCalls := 0, pipedItemCalls := 0 }
  else
    { pipeStarts := List.range n, run := check_stop n pump_init false inProc,
      downloaderCalls := 0, pipedItemCalls := 0 }

/-- Truthiness filtering of `filter_requests` applied to the list of
per-response batches in `Pomp._on_next_requests` (queue mode): a batch, being
a Python list in this embedding, is falsy exactly when empty. -/
def filter_request_batches (batches : List (List Value)) : List (List Value) :=
  batches.filter (fun b => !b.isEmpty)

/-- The `put_requests` calls made by `Pomp._on_next_requests` in queue mode:
`for requests in filter_requests(next_requests): filtered =
list(filter_requests(requests)); if filtered:
self.queue.put_requests(filtered)` — one call per truthy batch whose
truthiness-filtered flattening is non-empty, in order. -/
def queue_put_calls (next_requests : List (List Value)) : List (List Value) :=
  ((filter_request_batches next_requests).map filter_requests).filter
    (fun l => !l.isEmpty)

/-- Outcome of `self.queue.get_requests()` at the pull step: the pulled batch,
or the exception it raised. `E` is the exception type. -/
abbrev GetResult (E : Type) := Except E (List Value)

/-- `Pomp._on_next_requests(next_requests, crawler)` with a queue configured,
for a synchronously-resolving queue (the non-`Deferred` branch). First the
`put_requests` loop runs; then `next_requests = self.queue.get_requests()`
inside `try/except` which logs and re-raises; on success
`_check_stop(next_requests, crawler, 'queue is empty')` runs and
`_sync_or_async(next_requests, crawler, self._do)` dispatches the
truthiness-filtered pulled batch. The result pairs the `put_requests` call
log with either the raised exception or (new run state, dispatched batch). -/
def on_next_requests_queue {E : Type} (n : Nat) (s : RunState) (inProc : Bool)
    (getRes : GetResult E) (next_requests : List (List Value)) :
    List (List Value) × Except E (RunState × List Value) :=
  (queue_put_calls next_requests,
    match getRes with
    | .error e => .error e
    | .ok pulled =>
        .ok (check_stop n s (!pulled.isEmpty) inProc, filter_requests pulled))

/-- The successive inputs seen by the stages of the piping loop of
`Pomp._process_result`: entry `0` is the batch entering the first stage,
entry `i+1` is `list(filter(None, map(pipe_i.process, ...)))` of entry `i`,
and the final entry is the chain's output. -/
def stage_inputs : List Pipe → List Item → List (List Item)
  | [], items => [items]
  | p :: ps, items => items :: stage_inputs ps (items.filterMap p.process)

/-! ### Helper lemmas -/

theorem stage_inputs_ne_nil (ps : List Pipe) (items : List Item) :
    stage_inputs ps items ≠ [] := by
  cases ps <;> simp [stage_inputs]

theorem stage_inputs_getD_zero (ps : List Pipe) (items : List Item) :
    (stage_inputs ps items).getD 0 [] = items := by
  cases ps <;> simp [stage_inputs]

theorem stage_inputs_getLast? (ps : List Pipe) (items : List Item) :
    (stage_inputs ps items).getLast? = some (pipe_all ps items) := by
  induction ps generalizing items with
  | nil => simp [stage_inputs, pipe_all]
  | cons p ps ih =>
      have hne := stage_inputs_ne_nil ps (items.filterMap p.process)
      cases hq : stage_inputs ps (items.filterMap p.process) with
      | nil => exact absurd hq hne
      | cons a l =>
          simp only [stage_inputs, hq, List.getLast?_cons_cons]
          rw [← hq, ih]
          simp [pipe_all]

theorem stage_inputs_getD_succ (ps : List Pipe) (items : List Item) (i : Nat)
    (h : i < ps.length) :
    (stage_inputs ps items).getD (i + 1) [] =
      ((stage_inputs ps items).getD i []).filterMap (ps.getD i default).process := by
  induction ps generalizing items i with
  | nil => exact absurd h (by simp)
  | cons p ps ih =>
      cases i with
      | zero =>
          simp only [stage_inputs, List.getD_cons_succ, List.getD_cons_zero]
          exact stage_inputs_getD_zero ps _
      | succ i =>
          have h' : i < ps.length := by simpa using h
          simpa [stage_inputs] using ih (items.filterMap p.process) i h'

theorem pipe_all_append (ps : List Pipe) (xs ys : List Item) :
    pipe_all ps (xs ++ ys) = pipe_all ps xs ++ pipe_all ps ys := by
  induction ps generalizing xs ys with
  | nil => simp [pipe_all]
  | cons p ps ih =>
      simp only [pipe_all, List.foldl_cons, List.filterMap_append]
      exact ih _ _

theorem process_result_items_append (pipes : List Pipe) (xs ys : List Value) :
    process_result_items pipes (xs ++ ys) =
      process_result_items pipes xs ++ process_result_items pipes ys := by
  simp only [process_result_items, List.filterMap_append]
  exact pipe_all_append pipes _ _

theorem applyEv_stoped (s : RunState) (e : Ev) (h : s.stoped = true) :
    (applyEv s e).stoped = true := by
  cases e <;> simp [applyEv, h]

theorem foldl_applyEv_stoped (l : List Ev) (s : RunState) (h : s.stoped = true) :
    (l.foldl applyEv s).stoped = true := by
  induction l generalizing s with
  | nil => exact h
  | cons e l ih => exact ih _ (applyEv_stoped s e h)

theorem foldl_applyEv_pipeStop (l : List Nat) (s : RunState) :
    (l.map Ev.pipeStopHook).foldl applyEv s =
      { s with pipeStopCalls := s.pipeStopCalls ++ l } := by
  induction l generalizing s with
  | nil => simp
  | cons i l ih => simp [applyEv, ih]

/-- Folding the steps of `_stop` over any run state is exactly the state
transition `pomp_stop`: the trace-level and state-level embeddings agree. -/
theorem stop_steps_foldl (n : Nat) (s : RunState) :
    (stop_steps n).foldl applyEv s = pomp_stop n s := by
  simp only [stop_steps, List.foldl_cons, applyEv, List.foldl_append,
    foldl_applyEv_pipeStop, List.foldl_cons, List.foldl_nil, pomp_stop]

theorem check_stop_stoped (n : Nat) (s : RunState) (r p : Bool)
    (h : s.stoped = true) : check_stop n s r p = s := by
  simp [check_stop, h]

theorem pomp_stop_fulfill (n : Nat) (s : RunState) :
    (pomp_stop n s).fulfillCount = s.fulfillCount + 1 := rfl

theorem pomp_stop_ne (n : Nat) (s : RunState) : pomp_stop n s ≠ s := by
  intro h
  have := congrArg RunState.fulfillCount h
  simp [pomp_stop] at this

theorem check_stop_ne_iff (n : Nat) (s : RunState) (r p : Bool) :
    check_stop n s r p ≠ s ↔ (s.stoped = false ∧ r = false ∧ p = false) := by
  by_cases hs : s.stoped <;> by_cases hr : r <;> by_cases hp : p <;>
    simp [check_stop, hs, hr, hp, pomp_stop_ne n s]

theorem count_range_eq_one {i n : Nat} (h : i < n) : (List.range n).count i = 1 :=
  List.count_eq_one_of_mem (List.nodup_range n) (List.mem_range.mpr h)

/-- The stop-invariant of a run state: the deferred has been resolved exactly
when the run is marked stopped, and every pipeline stage has received `stop`
exactly as many times as the deferred has been resolved. -/
def StopInv (n : Nat) (s : RunState) : Prop :=
  s.fulfillCount = (if s.stoped then 1 else 0) ∧
  ∀ i, i < n → s.pipeStopCalls.count i = s.fulfillCount

theorem stopInv_init (n : Nat) : StopInv n pump_init := by
  constructor <;> simp [pump_init]

theorem stopInv_check_stop (n : Nat) (s : RunState) (r p : Bool)
    (h : StopInv n s) : StopInv n (check_stop n s r p) := by
  obtain ⟨h1, h2⟩ := h
  by_cases hs : s.stoped
  · rw [check_stop_stoped n s r p hs]; exact ⟨h1, h2⟩
  · have hs' : s.stoped = false := by simpa using hs
    have hf : s.fulfillCount = 0 := by simp [h1, hs']
    by_cases hr : r
    · have hcs : check_stop n s r p = s := by simp [check_stop, hr]
      rw [hcs]; exact ⟨h1, h2⟩
    · by_cases hp : p
      · have hcs : check_stop n s r p = s := by simp [check_stop, hp]
        rw [hcs]; exact ⟨h1, h2⟩
      · have hr' : r = false := by simpa using hr
        have hp' : p = false := by simpa using hp
        have hcs : check_stop n s r p = pomp_stop n s := by
          simp [check_stop, hs', hr', hp']
        rw [hcs]
        refine ⟨by simp [pomp_stop, hf], fun i hi => ?_⟩
        simp [pomp_stop, List.count_append, h2 i hi, hf, count_range_eq_one hi]

theorem stopInv_run_checks (n : Nat) (s : RunState) (checks : List (Bool × Bool))
    (h : StopInv n s) : StopInv n (run_checks n s checks) := by
  induction checks generalizing s with
  | nil => exact h
  | cons c rest ih => exact ih _ (stopInv_check_stop n s c.1 c.2 h)

theorem check_stop_stoped_mono (n : Nat) (s : RunState) (r p : Bool)
    (h : s.stoped = true) : (check_stop n s r p).stoped = true := by
  simp [check_stop_stoped n s r p h, h]

theorem run_checks_stoped_mono (n : Nat) (s : RunState) (checks : List (Bool × Bool))
    (h : s.stoped = true) : (run_checks n s checks).stoped = true := by
  induction checks generalizing s with
  | nil => exact h
  | cons c rest ih => exact ih _ (check_stop_stoped_mono n s c.1 c.2 h)

theorem check_stop_false_false_stoped (n : Nat) (s : RunState) :
    (check_stop n s false false).stoped = true := by
  by_cases hs : s.stoped
  · simp [check_stop_stoped n s false false hs, hs]
  · have hs' : s.stoped = false := by simpa using hs
    simp [check_stop, hs', pomp_stop]

theorem run_checks_stoped_of_mem (n : Nat) (s : RunState)
    (checks : List (Bool × Bool)) (h : (false, false) ∈ checks) :
    (run_checks n s checks).stoped = true := by
  induction checks generalizing s with
  | nil => simp at h
  | cons c rest ih =>
      rcases List.mem_cons.mp h with hc | hc
      · subst hc
        exact run_checks_stoped_mono n _ rest (check_stop_false_false_stoped n s)
      · exact ih _ hc

theorem flatten_filter_nonempty {α : Type} (l : List (List α)) :
    (l.filter (fun x => !x.isEmpty)).flatten = l.flatten := by
  induction l with
  | nil => rfl
  | cons x l ih =>
      by_cases hx : x.isEmpty
      · have hx0 : x = [] := List.isEmpty_iff.mp hx
        subst hx0
        rw [List.filter_cons]
        simp [ih]
      · have hx' : x.isEmpty = false := by simpa using hx
        rw [List.filter_cons]
        simp [hx', ih]

theorem flatten_map_filter_requests (l : List (List Value)) :
    (l.map filter_requests).flatten = filter_requests l.flatten := by
  induction l with
  | nil => rfl
  | cons x l ih => simp [filter_requests, List.filter_append, ih]

theorem queue_put_calls_flatten (nr : List (List Value)) :
    (queue_put_calls nr).flatten = filter_requests nr.flatten := by
  unfold queue_put_calls
  rw [flatten_filter_nonempty, flatten_map_filter_requests]
  unfold filter_request_batches
  rw [flatten_filter_nonempty]

theorem queue_put_calls_ne_nil (nr : List (List Value)) :
    ∀ l ∈ queue_put_calls nr, l ≠ [] := by
  intro l hl
  have := List.of_mem_filter hl
  intro h
  subst h
  simp at this

theorem pipe_all_nil (ps : List Pipe) : pipe_all ps [] = [] := by
  induction ps with
  | nil => rfl
  | cons p ps ih => simpa [pipe_all] using ih

theorem process_result_requests_flatten (bs : List (List Value)) :
    (bs.map process_result_requests).flatten =
      process_result_requests bs.flatten := by
  induction bs with
  | nil => rfl
  | cons b bs ih =>
      simp only [List.map_cons, List.flatten_cons, ih]
      simp [process_result_requests, List.filter_append]

theorem process_result_items_flatten (pipes : List Pipe) (bs : List (List Value)) :
    (bs.map (process_result_items pipes)).flatten =
      process_result_items pipes bs.flatten := by
  induction bs with
  | nil => simp [process_result_items, pipe_all_nil]
  | cons b bs ih =>
      simp only [List.map_cons, List.flatten_cons, ih]
      rw [process_result_items_append]

/-! ### Claims -/

/-- C1, corrected part: with no queue, empty/absent `ENTRY_REQUESTS`, and a
*depth-first* crawler, `pump` never evaluates the stop condition: the
pipelines receive `start` but never `stop`, and the returned deferred is
never resolved — the claim's guarantee fails on this run. -/
theorem claim_c1_counterexample :
    (pump_no_queue_no_entries 1 true false).run.fulfillCount = 0 ∧
    (pump_no_queue_no_entries 1 true false).run.pipeStopCalls = [] ∧
    (pump_no_queue_no_entries 1 true false).pipeStarts = [0] ∧
    (pump_no_queue_no_entries 1 true false).run.stoped = false := by
  decide

/-- C1, amended: for every run started via `pump` with no queue, empty or
absent `ENTRY_REQUESTS`, a crawler whose `is_depth_first()` is false and
whose `in_process()` is false, the completion signal resolves (exactly once),
every pipeline stage receives `start` exactly once and `stop` exactly once,
no `downloader.process` dispatch occurs and no item is passed to any
pipeline stage's `process`. -/
theorem claim_c1 (n : Nat) :
    pump_no_queue_no_entries n false false =
      { pipeStarts := List.range n,
        run := { stoped := true, pipeStopCalls := List.range n, fulfillCount := 1 },
        downloaderCalls := 0, pipedItemCalls := 0 } ∧
    (∀ i, i < n →
      (pump_no_queue_no_entries n false false).pipeStarts.count i = 1 ∧
      (pump_no_queue_no_entries n false false).run.pipeStopCalls.count i = 1) := by
  have he : pump_no_queue_no_entries n false false =
      { pipeStarts := List.range n,
        run := { stoped := true, pipeStopCalls := List.range n, fulfillCount := 1 },
        downloaderCalls := 0, pipedItemCalls := 0 } := by
    simp [pump_no_queue_no_entries, check_stop, pump_init, pomp_stop]
  refine ⟨he, fun i hi => ?_⟩
  rw [he]
  exact ⟨count_range_eq_one hi, count_range_eq_one hi⟩

theorem claim_c1_witness :
    (pump_no_queue_no_entries 2 false false).run.pipeStopCalls.count 1 = 1 :=
  ((claim_c1 2).2 1 (by decide)).2

/-- C2: `_check_stop` takes the stop action exactly when the run is not
already marked stopped, the freshly computed batch is falsy (empty/absent),
and `crawler.in_process()` is false; in that case it performs `_stop`, and
when any conjunct fails it leaves the run state (including the pipeline stop
log and the deferred) untouched. -/
theorem claim_c2 (n : Nat) (s : RunState) (r p : Bool) :
    (check_stop n s r p ≠ s ↔ (s.stoped = false ∧ r = false ∧ p = false)) ∧
    (s.stoped = false → r = false → p = false →
      check_stop n s r p = pomp_stop n s) ∧
    ((s.stoped = true ∨ r = true ∨ p = true) → check_stop n s r p = s) := by
  refine ⟨check_stop_ne_iff n s r p, fun hs hr hp => ?_, fun h => ?_⟩
  · simp [check_stop, hs, hr, hp]
  · rcases h with h | h | h <;> simp [check_stop, h]

theorem claim_c2_witness : check_stop 1 pump_init false false ≠ pump_init :=
  (claim_c2 1 pump_init false false).1.mpr (by decide)

/-- C3: over any sequence of `_check_stop` evaluation points of one run
(starting from the state `pump` creates), the completion deferred is resolved
at most once, it is resolved exactly when the run is marked stopped, each
pipeline stage's `stop` runs exactly as many times as the deferred resolves,
and if the stop condition (falsy batch and `in_process()` false) is satisfied
at least once then each stage's `stop` runs exactly once, no matter how many
evaluation points satisfy it. -/
theorem claim_c3 (n : Nat) (checks : List (Bool × Bool)) :
    (run_checks n pump_init checks).fulfillCount ≤ 1 ∧
    ((run_checks n pump_init checks).fulfillCount = 1 ↔
      (run_checks n pump_init checks).stoped = true) ∧
    (∀ i, i < n → (run_checks n pump_init checks).pipeStopCalls.count i =
      (run_checks n pump_init checks).fulfillCount) ∧
    ((false, false) ∈ checks →
      ∀ i, i < n → (run_checks n pump_init checks).pipeStopCalls.count i = 1) := by
  obtain ⟨h1, h2⟩ := stopInv_run_checks n pump_init checks (stopInv_init n)
  refine ⟨?_, ?_, h2, ?_⟩
  · rw [h1]; split <;> omega
  · rw [h1]
    by_cases hs : (run_checks n pump_init checks).stoped <;> simp [hs]
  · intro hm i hi
    rw [h2 i hi, h1, run_checks_stoped_of_mem n pump_init checks hm]
    simp

theorem claim_c3_witness :
    (run_checks 1 pump_init [(false, false), (false, false)]).pipeStopCalls.count 0 = 1 :=
  (claim_c3 1 [(false, false), (false, false)]).2.2.2 (by decide) 0 (by decide)

/-- C4, corrected part: on the depth-first no-queue path with a non-empty
extracted request list, `_process_result` dispatches the requests itself and
returns the result of that `downloader.process` call — an opaque completion
value, not the item-derived request list — so the value `response_callback`
then merges with `crawler.next_requests(response)` is not the item-derived
requests and the claimed shape of the next batch fails on that path. The same
input with a queue configured yields the extracted list. -/
theorem claim_c4_counterexample :
    process_result_return false true [Value.vreq 0] 7 =
      ProcessResultReturn.downloaderResult 7 ∧
    process_result_return false true [Value.vreq 0] 7 ≠
      ProcessResultReturn.requests (process_result_requests [Value.vreq 0]) ∧
    process_result_return true true [Value.vreq 0] 7 =
      ProcessResultReturn.requests [Value.vreq 0] := by
  decide

/-- C4, amended: for every response processed with a queue configured or a
breadth-first crawler, `_process_result` returns the extracted item-derived
request list, and the next batch computed by `response_callback` is the
item-derived requests followed by `crawler.next_requests(response)` when both
are non-empty; exactly `crawler.next_requests(response)` when the
item-derived requests are empty; and exactly the item-derived requests when
`crawler.next_requests(response)` is empty. On the depth-first no-queue path
with a non-empty item-derived set, `_process_result` instead returns the
result of the `downloader.process` dispatch it performs. -/
theorem claim_c4 (hasQueue isDepthFirst : Bool) (items : List Value) (d : Nat)
    (hmode : hasQueue = true ∨ isDepthFirst = false)
    (out : ProcessOut) (fromCrawler : List Value) :
    process_result_return hasQueue isDepthFirst items d =
      ProcessResultReturn.requests (process_result_requests items) ∧
    (requests_from_items out ≠ [] → fromCrawler ≠ [] →
      response_next_batch (requests_from_items out) fromCrawler =
        requests_from_items out ++ fromCrawler) ∧
    (requests_from_items out = [] →
      response_next_batch (requests_from_items out) fromCrawler = fromCrawler) ∧
    (fromCrawler = [] →
      response_next_batch (requests_from_items out) fromCrawler =
        requests_from_items out) := by
  refine ⟨?_, fun h1 h2 => ?_, fun h1 => ?_, fun h2 => ?_⟩
  · rcases hmode with h | h <;> simp [process_result_return, h]
  · cases hq : requests_from_items out with
    | nil => exact absurd hq h1
    | cons a l =>
        cases fromCrawler with
        | nil => exact absurd rfl h2
        | cons b m => simp [response_next_batch]
  · rw [h1]; simp [response_next_batch]
  · subst h2
    cases hq : requests_from_items out with
    | nil => simp [response_next_batch]
    | cons a l => simp [response_next_batch]

theorem claim_c4_witness :
    process_result_return true true [Value.vreq 0] 7 =
      ProcessResultReturn.requests (process_result_requests [Value.vreq 0]) ∧
    response_next_batch (requests_from_items (ProcessOut.plain [Value.vreq 0]))
        [Value.vreq 1] =
      requests_from_items (ProcessOut.plain [Value.vreq 0]) ++ [Value.vreq 1] :=
  ⟨(claim_c4 true true [Value.vreq 0] 7 (Or.inl rfl)
      (ProcessOut.plain [Value.vreq 0]) [Value.vreq 1]).1,
    (claim_c4 true true [Value.vreq 0] 7 (Or.inl rfl)
      (ProcessOut.plain [Value.vreq 0]) [Value.vreq 1]).2.1
      (by decide) (by decide)⟩

/-- C5, corrected part: the empty string is falsy yet request-like
(`isstring` accepts it), so `_process_result` keeps it in the extracted
next-request batch and `response_callback` keeps it in the computed next
batch — a falsy produced value is not discarded, refuting the claim. -/
theorem claim_c5_counterexample :
    process_result_requests [Value.vstr ""] = [Value.vstr ""] ∧
    response_next_batch (process_result_requests [Value.vstr ""]) [] =
      [Value.vstr ""] ∧
    truthy (Value.vstr "") = false := by
  decide

/-- C5, amended: the engine classifies every produced value as at most one of
request-like (a request instance or a string, the empty string included) or
item-like (an `Item` instance); a value that is neither is discarded without
error — removing it changes neither the extracted next-request batch, nor the
piped items, nor any pipeline stage's input. Falsy but request-like values
(the empty string) are retained in the next-request batch by
`_process_result`; they are only dropped later by `filter_requests` at the
queue/dispatch boundaries. -/
theorem claim_c5 (pipes : List Pipe) (xs : List Value) (v : Value)
    (hreq : isRequestLike v = false) (hitem : asItem v = none) :
    (∀ w : Value, ¬(isRequestLike w = true ∧ asItem w ≠ none)) ∧
    v ∉ process_result_requests (v :: xs) ∧
    process_result_requests (v :: xs) = process_result_requests xs ∧
    process_result_items pipes (v :: xs) = process_result_items pipes xs ∧
    stage_inputs pipes ((v :: xs).filterMap asItem) =
      stage_inputs pipes (xs.filterMap asItem) := by
  refine ⟨fun w => ?_, ?_, ?_, ?_, ?_⟩
  · cases w <;> simp [isRequestLike, asItem]
  · intro hv
    have := List.of_mem_filter hv
    rw [hreq] at this
    exact absurd this (by simp)
  · simp [process_result_requests, List.filter_cons, hreq]
  · simp [process_result_items, List.filterMap_cons, hitem]
  · simp [List.filterMap_cons, hitem]

theorem claim_c5_witness :
    process_result_requests (Value.vother true :: [Value.vitem 3]) =
      process_result_requests [Value.vitem 3] :=
  (claim_c5 [] [Value.vitem 3] (Value.vother true) (by decide) (by decide)).2.2.1

/-- C7: when `crawler.process` returns a generator of batches,
`response_callback` drains it fully, and both the accumulated item-derived
requests and the piped items are exactly what processing the concatenation of
all batches as one single batch would give. -/
theorem claim_c7 (pipes : List Pipe) (batches : List (List Value)) :
    requests_from_items (ProcessOut.gen batches) =
      requests_from_items (ProcessOut.plain batches.flatten) ∧
    piped_items pipes (ProcessOut.gen batches) =
      piped_items pipes (ProcessOut.plain batches.flatten) := by
  constructor
  · simp only [requests_from_items]
    exact process_result_requests_flatten batches
  · simp only [piped_items]
    exact process_result_items_flatten pipes batches

/-- C8: in the piping loop of `_process_result`, stage `i+1` is invoked
exactly on the non-dropped outputs of stage `i` (an item reaches stage `i+1`
iff stage `i` returned it as a non-drop value for some input), and the final
pipeline output is the last stage input list, so an item dropped at any stage
is never observed later and never appears in the output. -/
theorem claim_c8 (pipes : List Pipe) (items : List Item) (i : Nat)
    (h : i < pipes.length) :
    (stage_inputs pipes items).getD (i + 1) [] =
      ((stage_inputs pipes items).getD i []).filterMap
        (pipes.getD i default).process ∧
    (∀ y, y ∈ (stage_inputs pipes items).getD (i + 1) [] ↔
      ∃ x ∈ (stage_inputs pipes items).getD i [],
        (pipes.getD i default).process x = some y) ∧
    (stage_inputs pipes items).getLast? = some (pipe_all pipes items) := by
  refine ⟨stage_inputs_getD_succ pipes items i h, fun y => ?_,
    stage_inputs_getLast? pipes items⟩
  rw [stage_inputs_getD_succ pipes items i h]
  simp [List.mem_filterMap]

theorem claim_c8_witness :
    (stage_inputs [(⟨some⟩ : Pipe), ⟨fun _ => none⟩, ⟨some⟩] [5]).getD 2 [] =
      ((stage_inputs [(⟨some⟩ : Pipe), ⟨fun _ => none⟩, ⟨some⟩] [5]).getD 1 []).filterMap
        (([(⟨some⟩ : Pipe), ⟨fun _ => none⟩, ⟨some⟩].getD 1 default)).process :=
  (claim_c8 [(⟨some⟩ : Pipe), ⟨fun _ => none⟩, ⟨some⟩] [5] 1 (by decide)).1

/-- C6: in queue mode `_on_next_requests` pushes every truthy discovered
request to `queue.put_requests` (flattening the per-response batches,
discarding falsy batches and falsy entries, never calling `put_requests`
with an empty list), then pulls a fresh batch from `queue.get_requests` and
dispatches its truthiness-filtered contents after the stop check — and a
configured queue routes `response_callback`'s batch to the queue regardless
of `crawler.is_depth_first()`. -/
theorem claim_c6 (E : Type) (n : Nat) (s : RunState) (inProc : Bool)
    (pulled : List Value) (nr : List (List Value)) (isDepthFirst : Bool) :
    on_next_requests_queue n s inProc (Except.ok pulled : GetResult E) nr =
      (queue_put_calls nr,
        Except.ok (check_stop n s (!pulled.isEmpty) inProc,
          filter_requests pulled)) ∧
    (∀ l ∈ queue_put_calls nr, l ≠ []) ∧
    (queue_put_calls nr).flatten = filter_requests nr.flatten ∧
    response_route true isDepthFirst = Route.toQueue :=
  ⟨rfl, queue_put_calls_ne_nil nr, queue_put_calls_flatten nr, rfl⟩

theorem claim_c6_witness :
    on_next_requests_queue 1 pump_init false
        (Except.ok [Value.vreq 0] : GetResult Unit)
        [[Value.vreq 2, Value.vnone], []] =
      (queue_put_calls [[Value.vreq 2, Value.vnone], []],
        Except.ok (check_stop 1 pump_init (!([Value.vreq 0]).isEmpty) false,
          filter_requests [Value.vreq 0])) :=
  (claim_c6 Unit 1 pump_init false [Value.vreq 0]
    [[Value.vreq 2, Value.vnone], []] true).1

/-- C9: when `queue.get_requests()` raises during the pull step of
`_on_next_requests`, the same exception is re-raised to the caller of that
step: no stop check runs and no dispatch happens, only the already-performed
`put_requests` calls remain. -/
theorem claim_c9 (E : Type) (n : Nat) (s : RunState) (inProc : Bool) (e : E)
    (nr : List (List Value)) :
    on_next_requests_queue n s inProc (Except.error e : GetResult E) nr =
      (queue_put_calls nr, Except.error e) :=
  rfl

/-- C10: `_stop` sets the `stoped` flag as its very first step, before any
pipeline stage's `stop` hook and before the deferred resolves; hence after
any non-empty prefix of `_stop`'s steps the run is observed as stopped, and
a `_check_stop` evaluated from inside a pipeline stop hook is a no-op. -/
theorem claim_c10 (n : Nat) (s : RunState) (j : Nat) (r p : Bool) (h : 1 ≤ j) :
    (stop_steps n).head? = some Ev.setStopped ∧
    Ev.setStopped ∉ (stop_steps n).tail ∧
    (((stop_steps n).take j).foldl applyEv s).stoped = true ∧
    check_stop n (((stop_steps n).take j).foldl applyEv s) r p =
      ((stop_steps n).take j).foldl applyEv s := by
  obtain ⟨j', rfl⟩ : ∃ j', j = j' + 1 := ⟨j - 1, by omega⟩
  have hs : (((stop_steps n).take (j' + 1)).foldl applyEv s).stoped = true := by
    simp only [stop_steps, List.take_succ_cons, List.foldl_cons]
    exact foldl_applyEv_stoped _ _ (by simp [applyEv])
  refine ⟨rfl, ?_, hs, check_stop_stoped n _ r p hs⟩
  simp [stop_steps]

theorem claim_c10_witness :
    (((stop_steps 1).take 1).foldl applyEv pump_init).stoped = true :=
  (claim_c10 1 pump_init 1 false false (by decide)).2.2.1

end Pomp
